import Mathlib

/-!
Verification of the ECS game runtime in `main.py` (Gem-RPG).

The Python source is shallowly embedded here:
* Python dicts become association lists (`dictGet`/`dictSet` mirror
  `dict.get` / `dict.__setitem__`: lookup of the first matching key,
  in-place overwrite or append at the end).
* Python sets of entity ids become `Finset ℕ`; `list(set_of_ids)` is
  modelled as enumeration of the ids in ascending order (the ids are
  handed out consecutively from 0 by `create_entity`, and CPython
  enumerates such small-int sets in ascending slot order).
* Python floats are idealised as real numbers (physics, render sort)
  or rationals (animation timers); machine ints are `ℤ`/`ℕ`.

Each section names the Python class/function it is translated from.
-/

/-! ### Python dict primitives -/

/-- Model of `d.get(k)` on a Python dict represented as an association
list: return the value stored at the first matching key, if any. -/
def dictGet {α β : Type _} [DecidableEq α] (d : List (α × β)) (k : α) : Option β :=
  match d with
  | [] => none
  | (k', v) :: rest => if k' = k then some v else dictGet rest k

/-- Model of `d[k] = v` on a Python dict: overwrite the entry in place
if the key is present, otherwise append the new entry at the end. -/
def dictSet {α β : Type _} [DecidableEq α] (d : List (α × β)) (k : α) (v : β) :
    List (α × β) :=
  match d with
  | [] => [(k, v)]
  | (k', v') :: rest => if k' = k then (k', v) :: rest else (k', v') :: dictSet rest k v

/-! ### ECSManager (`main.py` lines 23-58) -/

/-- State of `ECSManager`: `self.next_entity_id`, `self.components`
(a dict mapping a component kind to a dict mapping entity id to the
stored component value), and `self.entities_to_destroy`. The component
kind type `K` and the component value type `V` are parameters. -/
structure ECSManager (K V : Type _) where
  next_entity_id : ℕ := 0
  components : List (K × List (ℕ × V)) := []
  entities_to_destroy : List ℕ := []

variable {K V : Type _} [DecidableEq K]

/-- `ECSManager.create_entity` (lines 29-32): return the fresh id and
the manager with the counter advanced. -/
def ECSManager.create_entity (m : ECSManager K V) : ℕ × ECSManager K V :=
  (m.next_entity_id, { m with next_entity_id := m.next_entity_id + 1 })

/-- `ECSManager.add_component` (lines 34-38). The component kind `k`
stands for Python's `type(component)`. -/
def ECSManager.add_component (m : ECSManager K V) (e : ℕ) (k : K) (v : V) :
    ECSManager K V :=
  let comps := if (dictGet m.components k).isSome then m.components
               else dictSet m.components k []
  { m with components := dictSet comps k (dictSet ((dictGet comps k).getD []) e v) }

/-- `ECSManager.get_component` (lines 40-41):
`self.components.get(comp_type, {}).get(entity)`. -/
def ECSManager.get_component (m : ECSManager K V) (e : ℕ) (k : K) : Option V :=
  dictGet ((dictGet m.components k).getD []) e

/-- `set(self.components.get(ct, {}).keys())` (used in line 45 and 47). -/
def ECSManager.keySet (m : ECSManager K V) (k : K) : Finset ℕ :=
  (((dictGet m.components k).getD []).map Prod.fst).toFinset

/-- `ECSManager.get_entities_with` (lines 43-48): intersect the key
sets of the requested component kinds; empty request returns `[]`.
`list(entities)` is modelled as ascending enumeration of the id set. -/
def ECSManager.get_entities_with (m : ECSManager K V) (comp_types : List K) : List ℕ :=
  match comp_types with
  | [] => []
  | k :: ks => (ks.foldl (fun s k' => s ∩ m.keySet k') (m.keySet k)).sort (· ≤ ·)

/-- `ECSManager.destroy_entity` (lines 50-51): enqueue the entity. -/
def ECSManager.destroy_entity (m : ECSManager K V) (e : ℕ) : ECSManager K V :=
  { m with entities_to_destroy := m.entities_to_destroy ++ [e] }

/-- `del self.components[ct][entity]` applied to every kind's table
(the loop body of `process_destruction`, lines 54-57; the `if entity in`
guard makes the unguarded removal below equivalent). -/
def eraseEntity (cs : List (K × List (ℕ × V))) (e : ℕ) : List (K × List (ℕ × V)) :=
  cs.map (fun p => (p.1, p.2.filter (fun q => q.1 != e)))

/-- `ECSManager.process_destruction` (lines 53-58): remove every queued
entity from every kind's table, then clear the queue. -/
def ECSManager.process_destruction (m : ECSManager K V) : ECSManager K V :=
  { m with components := m.entities_to_destroy.foldl eraseEntity m.components,
           entities_to_destroy := [] }

/-! ### Dictionary lemmas -/

theorem dictGet_isSome_iff_mem_keys {α β : Type _} [DecidableEq α]
    (d : List (α × β)) (k : α) : (dictGet d k).isSome ↔ k ∈ d.map Prod.fst := by
  induction d with
  | nil => simp [dictGet]
  | cons p rest ih =>
    obtain ⟨k', v⟩ := p
    by_cases h : k' = k
    · subst h; simp [dictGet]
    · have h' : ¬ k = k' := fun hh => h hh.symm
      simp only [dictGet, if_neg h, List.map_cons, List.mem_cons, ih]
      exact (or_iff_right h').symm

theorem dictGet_map_snd {α β γ : Type _} [DecidableEq α]
    (cs : List (α × β)) (f : β → γ) (k : α) :
    dictGet (cs.map (fun p => (p.1, f p.2))) k = (dictGet cs k).map f := by
  induction cs with
  | nil => rfl
  | cons p rest ih =>
    obtain ⟨k', v⟩ := p
    by_cases h : k' = k
    · subst h; simp [dictGet]
    · simp [dictGet, h, ih]

theorem dictGet_filter_ne_self {β : Type _} (d : List (ℕ × β)) (e : ℕ) :
    dictGet (d.filter (fun q => q.1 != e)) e = none := by
  induction d with
  | nil => rfl
  | cons p rest ih =>
    obtain ⟨k, v⟩ := p
    by_cases h : k = e
    · simpa [List.filter_cons, h] using ih
    · simpa [List.filter_cons, bne_iff_ne, h, dictGet] using ih

theorem dictGet_filter_of_none {β : Type _} (d : List (ℕ × β)) (p : ℕ × β → Bool)
    (e : ℕ) (h : dictGet d e = none) : dictGet (d.filter p) e = none := by
  induction d with
  | nil => rfl
  | cons q rest ih =>
    obtain ⟨k, v⟩ := q
    by_cases hk : k = e
    · simp [dictGet, hk] at h
    · by_cases hp : p (k, v) <;>
        simp_all [List.filter_cons, dictGet, hk]

/-- After erasing entity `e`, its row is gone from every kind's table. -/
theorem get_component_eraseEntity_self (cs : List (K × List (ℕ × V)))
    (e : ℕ) (k : K) :
    dictGet ((dictGet (eraseEntity cs e) k).getD []) e = none := by
  rw [eraseEntity, dictGet_map_snd]
  cases h : dictGet cs k with
  | none => rfl
  | some d => simpa using dictGet_filter_ne_self d e

/-- Erasing any entity preserves the absence of another entity's row. -/
theorem get_component_eraseEntity_of_none (cs : List (K × List (ℕ × V))) (e e' : ℕ) (k : K)
    (h : dictGet ((dictGet cs k).getD []) e = none) :
    dictGet ((dictGet (eraseEntity cs e') k).getD []) e = none := by
  rw [eraseEntity, dictGet_map_snd]
  cases hk : dictGet cs k with
  | none => rfl
  | some d =>
    rw [hk] at h
    simpa using dictGet_filter_of_none d _ e h

theorem foldl_eraseEntity_of_none (es : List ℕ) (e : ℕ) (k : K) :
    ∀ cs : List (K × List (ℕ × V)), dictGet ((dictGet cs k).getD []) e = none →
      dictGet ((dictGet (es.foldl eraseEntity cs) k).getD []) e = none := by
  induction es with
  | nil => intro cs h; simpa using h
  | cons a rest ih =>
    intro cs h
    exact ih _ (get_component_eraseEntity_of_none cs e a k h)

theorem foldl_eraseEntity_mem (es : List ℕ) (e : ℕ) (he : e ∈ es) (k : K) :
    ∀ cs : List (K × List (ℕ × V)),
      dictGet ((dictGet (es.foldl eraseEntity cs) k).getD []) e = none := by
  induction es with
  | nil => cases he
  | cons a rest ih =>
    intro cs
    rcases List.mem_cons.mp he with h | h
    · subst h
      exact foldl_eraseEntity_of_none rest e k _
        (get_component_eraseEntity_self cs e k)
    · exact ih h _

/-! ### Query lemmas (shared by the C1 and C2 theorems) -/

theorem mem_foldl_inter (m : ECSManager K V) (ks : List K) (e : ℕ) :
    ∀ s : Finset ℕ, e ∈ ks.foldl (fun s k' => s ∩ m.keySet k') s ↔
      e ∈ s ∧ ∀ k ∈ ks, e ∈ m.keySet k := by
  induction ks with
  | nil => simp
  | cons a rest ih =>
    intro s
    rw [List.foldl_cons, ih]
    simp only [Finset.mem_inter, List.mem_cons]
    constructor
    · rintro ⟨⟨hs, ha⟩, h⟩
      exact ⟨hs, fun k hk => by rcases hk with rfl | hk; exact ha; exact h k hk⟩
    · rintro ⟨hs, h⟩
      exact ⟨⟨hs, h a (Or.inl rfl)⟩, fun k hk => h k (Or.inr hk)⟩

/-- Membership in a query result: the requested kind list is non-empty
and the entity holds every requested kind. -/
theorem mem_get_entities_with (m : ECSManager K V) (ks : List K) (e : ℕ) :
    e ∈ m.get_entities_with ks ↔ ks ≠ [] ∧ ∀ k ∈ ks, e ∈ m.keySet k := by
  cases ks with
  | nil => simp [ECSManager.get_entities_with]
  | cons a rest =>
    rw [ECSManager.get_entities_with, Finset.mem_sort, mem_foldl_inter]
    simp [and_comm]

theorem nodup_get_entities_with (m : ECSManager K V) (ks : List K) :
    (m.get_entities_with ks).Nodup := by
  cases ks with
  | nil => simp [ECSManager.get_entities_with]
  | cons a rest => exact Finset.sort_nodup _ _

/-- An entity is in a kind's key set iff `get_component` finds a value. -/
theorem mem_keySet_iff (m : ECSManager K V) (k : K) (e : ℕ) :
    e ∈ m.keySet k ↔ (m.get_component e k).isSome := by
  rw [ECSManager.keySet, List.mem_toFinset, ECSManager.get_component,
    dictGet_isSome_iff_mem_keys]

/-! ### Claim C1 -/

/-- C1: for every set of component kinds `K`, `get_entities_with`
returns exactly the set of entities that hold a component of every
kind in `K`, with no duplicates; when `K` is empty it returns the
empty collection. -/
theorem c1_query_law (m : ECSManager K V) (ks : List K) :
    (m.get_entities_with ks).Nodup ∧
    (∀ e, e ∈ m.get_entities_with ks ↔
      ks ≠ [] ∧ ∀ k ∈ ks, (m.get_component e k).isSome) ∧
    m.get_entities_with [] = [] := by
  refine ⟨nodup_get_entities_with m ks, fun e => ?_, rfl⟩
  rw [mem_get_entities_with]
  constructor
  · rintro ⟨h, hk⟩
    exact ⟨h, fun k hkk => (mem_keySet_iff m k e).mp (hk k hkk)⟩
  · rintro ⟨h, hk⟩
    exact ⟨h, fun k hkk => (mem_keySet_iff m k e).mpr (hk k hkk)⟩

/-! ### Claim C2 -/

/-- C2: a destroyed-and-flushed entity appears in no component table:
every `get_component` lookup for it returns `none` and every query
excludes it; enqueueing the same entity twice before the flush yields
the same post-flush state as destroying it once; and flushing with an
empty queue changes nothing. -/
theorem c2_destruction_law :
    (∀ (m : ECSManager K V) (e : ℕ), e ∈ m.entities_to_destroy →
      (∀ k, m.process_destruction.get_component e k = none) ∧
      (∀ ks : List K, e ∉ m.process_destruction.get_entities_with ks)) ∧
    (∀ (m : ECSManager K V) (e : ℕ),
      ((m.destroy_entity e).destroy_entity e).process_destruction =
        (m.destroy_entity e).process_destruction) ∧
    (∀ m : ECSManager K V, m.entities_to_destroy = [] →
      m.process_destruction = m) := by
  refine ⟨?_, ?_, ?_⟩
  · intro m e he
    have hnone : ∀ k, m.process_destruction.get_component e k = none := by
      intro k
      exact foldl_eraseEntity_mem m.entities_to_destroy e he k m.components
    refine ⟨hnone, fun ks hmem => ?_⟩
    rcases (mem_get_entities_with _ ks e).mp hmem with ⟨hne, hall⟩
    rcases ks with _ | ⟨k, rest⟩
    · exact hne rfl
    · have := (mem_keySet_iff _ k e).mp (hall k (by simp))
      rw [hnone k] at this
      simp at this
  · intro m e
    unfold ECSManager.process_destruction ECSManager.destroy_entity
    simp only [List.foldl_append, List.foldl_cons, List.foldl_nil]
    congr 1
    rw [eraseEntity, eraseEntity, List.map_map]
    apply List.map_congr_left
    intro p _
    simp only [Function.comp]
    rw [List.filter_filter]
    congr 1
    exact List.filter_congr (fun a _ => Bool.and_self _)
  · intro m h
    cases m with
    | mk n cs q =>
      simp only at h
      subst h
      rfl

/-- Witness for C2 at a concrete store: entity 0 holds component kind 0,
is destroyed and flushed, and afterwards no lookup finds it. -/
theorem c2_destruction_law_witness :
    ((((ECSManager.mk 1 [(0, [(0, 7)])] [] : ECSManager ℕ ℕ).destroy_entity
        0).process_destruction).get_component 0 0 = none) ∧
    ((ECSManager.mk 0 [] [] : ECSManager ℕ ℕ).process_destruction =
      (ECSManager.mk 0 [] [] : ECSManager ℕ ℕ)) := by
  constructor
  · exact ((c2_destruction_law.1 ((ECSManager.mk 1 [(0, [(0, 7)])] []).destroy_entity 0) 0
      (by decide)).1) 0
  · exact c2_destruction_law.2.2 _ rfl

/-! ### Components for animation and movement (`main.py` lines 77-110) -/

/-- `MovementState` dataclass (lines 77-81). -/
structure MovementState where
  current_state : String := "IDLE"
  facing : String := "DOWN"
deriving DecidableEq

/-- `PaperSprite` dataclass (lines 88-110). Frame surfaces are opaque
handles (`ℕ`); the animation table is a Python dict from animation name
to frame list. Float fields are idealised as `ℚ`. -/
structure PaperSprite where
  animations : List (String × List ℕ) := []
  current_anim : String := "default"
  frame_index : ℤ := 0
  frame_timer : ℚ := 0
  frame_duration : ℚ := 15/100
  playback_speed : ℚ := 1
  loop_mode : String := "LOOP"
  ping_pong_direction : ℤ := 1
  flip_x : Bool := false
  opacity : ℤ := 255
  rotation : ℚ := 0
  scale : ℚ := 1
  offset_y : ℤ := -4
  z_index : ℤ := 0
deriving DecidableEq

/-- Python's `sub in s` substring test, via `splitOn`: the pattern
occurs in `s` iff splitting on it produces at least two pieces. -/
def pyContains (s sub : String) : Bool := (s.splitOn sub).length ≥ 2

/-! ### AnimationSystem (`main.py` lines 258-314) -/

/-- Phase A of `AnimationSystem.update` (lines 265-288) for one entity
holding both `MovementState` and `PaperSprite`: compose the target key
`"<state>_<facing>"`, rewrite LEFT to RIGHT setting the flip flag, fall
back to `"IDLE_<facing>"` (same rewrite) when the key is absent, and
restart the animation when the resolved name differs from the active
one. -/
def stateMapping (state : MovementState) (anim : PaperSprite) : PaperSprite :=
  let target := state.current_state ++ "_" ++ state.facing
  let target_anim :=
    if pyContains state.facing "LEFT" then
      (target.replace "LEFT" "RIGHT", { anim with flip_x := true })
    else (target, { anim with flip_x := false })
  let target := target_anim.1
  let anim := target_anim.2
  let target :=
    if (dictGet anim.animations target).isSome then target
    else ("IDLE_" ++ state.facing).replace "LEFT" "RIGHT"
  if anim.current_anim ≠ target then
    { anim with current_anim := target, frame_index := 0, frame_timer := 0 }
  else anim

/-- Phase B of `AnimationSystem.update` (lines 290-314) for one entity:
accumulate the frame timer and advance the frame index by loop mode.
`if not frames: continue` skips both a missing key (`None`) and an
empty frame list. The local `direction` of line 303 is unused in the
source and omitted here. `%` is Python's nonnegative-remainder `emod`. -/
def advanceFrame (dt : ℚ) (anim : PaperSprite) : PaperSprite :=
  match dictGet anim.animations anim.current_anim with
  | none => anim
  | some frames =>
    if frames = [] then anim
    else
      let timer := anim.frame_timer + dt * anim.playback_speed
      if timer ≥ anim.frame_duration then
        if anim.loop_mode = "PINGPONG" then
          let idx := anim.frame_index + 1 * anim.ping_pong_direction
          if idx ≥ (frames.length : ℤ) then
            { anim with frame_timer := 0, frame_index := (frames.length : ℤ) - 2,
                        ping_pong_direction := -1 }
          else if idx < 0 then
            { anim with frame_timer := 0, frame_index := 1, ping_pong_direction := 1 }
          else { anim with frame_timer := 0, frame_index := idx }
        else
          { anim with frame_timer := 0,
                      frame_index := (anim.frame_index + 1) % (frames.length : ℤ) }
      else { anim with frame_timer := timer }

/-- Frame selection of `RenderSystem.update` for one entity (lines
335-340): skip the entity when the active animation has no frames,
otherwise clamp the stored frame index into range (the "Safety Check"
`idx = max(0, min(anim.frame_index, len(frames)-1))`) and return the
selected frame handle. -/
def renderSelect (anim : PaperSprite) : Option ℕ :=
  match dictGet anim.animations anim.current_anim with
  | none => none
  | some frames =>
    if frames = [] then none
    else frames[(max 0 (min anim.frame_index ((frames.length : ℤ) - 1))).toNat]?

/-! ### Claim C3 -/

/-- A single-frame PINGPONG sprite about to advance (the ghost archetype
of `create_ghost` uses `loop_mode="PINGPONG"` with one frame). -/
def pingpongSingle : PaperSprite :=
  { animations := [("default", [0])], current_anim := "default",
    frame_index := 0, frame_timer := 0, frame_duration := 1,
    playback_speed := 1, loop_mode := "PINGPONG", ping_pong_direction := 1 }

/-- C3 counterexample: the claim as stated is false. A single-frame
PINGPONG animation advances its index to `len(frames) - 2 = -1`, out of
bounds of the one-frame sequence, after one update with `dt` equal to
the frame duration. -/
theorem c3_counterexample :
    dictGet pingpongSingle.animations pingpongSingle.current_anim = some [0] ∧
    pingpongSingle.loop_mode = "PINGPONG" ∧
    (advanceFrame 1 pingpongSingle).frame_index = -1 ∧
    ¬(0 ≤ (advanceFrame 1 pingpongSingle).frame_index ∧
      (advanceFrame 1 pingpongSingle).frame_index < 1) := by
  norm_num [advanceFrame, pingpongSingle, dictGet]

/-- C3 (amended): for every entity whose active animation maps to a
non-empty frame sequence, the frame index stays in bounds after a
frame-advance update, for every loop mode and every `dt ≥ 0`, provided
that in PINGPONG mode the sequence has at least two frames and the
ping-pong direction is ±1 (a single-frame PINGPONG animation — the
counterexample — leaves the bounds; no other configuration does, and no
division by zero occurs since the modulus `len(frames)` is positive).
The ping-pong direction also stays ±1. -/
theorem c3_frame_index_in_bounds (dt : ℚ) (anim : PaperSprite) (frames : List ℕ)
    (hf : dictGet anim.animations anim.current_anim = some frames)
    (hne : frames ≠ [])
    (hidx : 0 ≤ anim.frame_index ∧ anim.frame_index < (frames.length : ℤ))
    (hpp : anim.loop_mode = "PINGPONG" →
      (anim.ping_pong_direction = 1 ∨ anim.ping_pong_direction = -1) ∧
      2 ≤ frames.length)
    (hdt : 0 ≤ dt) :
    (0 ≤ (advanceFrame dt anim).frame_index ∧
      (advanceFrame dt anim).frame_index < (frames.length : ℤ)) ∧
    (anim.loop_mode = "PINGPONG" →
      (advanceFrame dt anim).ping_pong_direction = 1 ∨
      (advanceFrame dt anim).ping_pong_direction = -1) := by
  have hlen : 0 < (frames.length : ℤ) := by
    have := List.length_pos.mpr hne
    exact_mod_cast this
  unfold advanceFrame
  rw [hf]
  simp only [if_neg hne]
  split_ifs with ht hm hge hlt
  · obtain ⟨hd, h2⟩ := hpp hm
    have h2' : (2 : ℤ) ≤ (frames.length : ℤ) := by exact_mod_cast h2
    refine ⟨⟨?_, ?_⟩, fun _ => ?_⟩ <;> simp <;> omega
  · obtain ⟨hd, h2⟩ := hpp hm
    have h2' : (2 : ℤ) ≤ (frames.length : ℤ) := by exact_mod_cast h2
    refine ⟨⟨?_, ?_⟩, fun _ => ?_⟩ <;> simp <;> omega
  · obtain ⟨hd, h2⟩ := hpp hm
    refine ⟨⟨?_, ?_⟩, fun _ => ?_⟩ <;> simp <;> omega
  · refine ⟨⟨?_, ?_⟩, fun h => absurd h hm⟩
    · simpa using Int.emod_nonneg (anim.frame_index + 1) (by omega)
    · simpa using Int.emod_lt_of_pos (anim.frame_index + 1) hlen
  · refine ⟨?_, fun h => ?_⟩
    · simpa using hidx
    · simpa using (hpp h).1

/-- A two-frame PINGPONG sprite, used as a concrete instance of the
amended C3 bound. -/
def pingpongPair : PaperSprite :=
  { animations := [("default", [0, 1])], current_anim := "default",
    frame_index := 0, frame_timer := 0, frame_duration := 1,
    playback_speed := 1, loop_mode := "PINGPONG", ping_pong_direction := 1 }

/-- Witness for the amended C3 at a concrete sprite. -/
theorem c3_frame_index_in_bounds_witness :
    0 ≤ (advanceFrame 1 pingpongPair).frame_index ∧
    (advanceFrame 1 pingpongPair).frame_index < 2 := by
  have h := c3_frame_index_in_bounds 1 pingpongPair [0, 1] rfl (by decide)
    (by decide) (fun _ => ⟨Or.inl rfl, by decide⟩) (by norm_num)
  simpa using h.1

/-! ### Claim C4 -/

/-- A two-frame ONCE animation already holding at its last index. -/
def onceSprite : PaperSprite :=
  { animations := [("A", [10, 11])], current_anim := "A", frame_index := 1,
    frame_timer := 0, frame_duration := 1, playback_speed := 1,
    loop_mode := "ONCE", ping_pong_direction := 1 }

/-- C4: the claim states the ONCE mode holds at the last index forever.
The code has no ONCE branch: `loop_mode = "ONCE"` falls into the
`else: # Default LOOP` branch of lines 313-314 and wraps modulo the
frame count. Evaluating the code at the failing input: a two-frame ONCE
animation at its last index (1) advances and wraps back to index 0. -/
theorem c4_once_mode_wraps :
    onceSprite.loop_mode = "ONCE" ∧
    onceSprite.frame_index = (2 : ℤ) - 1 ∧
    (advanceFrame 1 onceSprite).frame_index = 0 := by
  norm_num [advanceFrame, onceSprite, dictGet]
  decide

/-! ### Claim C9 -/

/-- C9: for an active animation name bound to no entry or to an empty
frame list, the frame-advance phase leaves the sprite entirely
unchanged (in particular frame index and frame timer), and the render
step draws nothing; and Phase A installs the `IDLE_<facing>` fallback
key (with the LEFT→RIGHT rewrite) as the active name whenever the
primary key is absent, with no check that the fallback itself exists. -/
theorem c9_missing_frames_skipped :
    (∀ (dt : ℚ) (anim : PaperSprite),
      (dictGet anim.animations anim.current_anim = none ∨
       dictGet anim.animations anim.current_anim = some []) →
      advanceFrame dt anim = anim) ∧
    (∀ anim : PaperSprite,
      (dictGet anim.animations anim.current_anim = none ∨
       dictGet anim.animations anim.current_anim = some []) →
      renderSelect anim = none) ∧
    (∀ (state : MovementState) (anim : PaperSprite),
      dictGet anim.animations
        (if pyContains state.facing "LEFT" then
          (state.current_state ++ "_" ++ state.facing).replace "LEFT" "RIGHT"
         else state.current_state ++ "_" ++ state.facing) = none →
      (stateMapping state anim).current_anim =
        ("IDLE_" ++ state.facing).replace "LEFT" "RIGHT") := by
  refine ⟨?_, ?_, ?_⟩
  · intro dt anim h
    rcases h with h | h <;> (unfold advanceFrame; rw [h]) <;> simp
  · intro anim h
    rcases h with h | h <;> (unfold renderSelect; rw [h]) <;> simp
  · intro state anim h
    unfold stateMapping
    by_cases hL : pyContains state.facing "LEFT"
    · rw [if_pos hL] at h
      simp only [hL, if_true, h, Option.isSome_none, Bool.false_eq_true, if_false]
      split_ifs with hq
      · rfl
      · exact not_not.mp hq
    · rw [if_neg hL] at h
      simp only [hL, Bool.false_eq_true, if_false, h, Option.isSome_none]
      split_ifs with hq
      · rfl
      · exact not_not.mp hq

/-- Witness for C9: the freshly constructed `PaperSprite` (all defaults,
as at entity creation) has `current_anim = "default"` absent from its
empty animation table; and Phase A on a `(WALK, LEFT)` state with an
empty table installs the absent fallback key. -/
theorem c9_missing_frames_skipped_witness :
    advanceFrame 1 ({} : PaperSprite) = ({} : PaperSprite) ∧
    renderSelect ({} : PaperSprite) = none ∧
    (stateMapping ⟨"WALK", "LEFT"⟩ ({} : PaperSprite)).current_anim =
      ("IDLE_" ++ "LEFT").replace "LEFT" "RIGHT" := by
  refine ⟨?_, ?_, ?_⟩
  · exact c9_missing_frames_skipped.1 1 {} (Or.inl rfl)
  · exact c9_missing_frames_skipped.2.1 {} (Or.inl rfl)
  · exact c9_missing_frames_skipped.2.2 ⟨"WALK", "LEFT"⟩ {} rfl

/-! ### Claim C10 -/

/-- C10: the render step clamps the stored frame index into
`[0, frameCount − 1]` (`idx = max(0, min(frame_index, len(frames)-1))`),
so for a non-empty active frame list the draw-time frame access is in
range — even when the stored index is out of bounds — and a frame is
selected. -/
theorem c10_render_clamp (anim : PaperSprite) (frames : List ℕ)
    (hf : dictGet anim.animations anim.current_anim = some frames)
    (hne : frames ≠ []) :
    0 ≤ max 0 (min anim.frame_index ((frames.length : ℤ) - 1)) ∧
    max 0 (min anim.frame_index ((frames.length : ℤ) - 1)) < (frames.length : ℤ) ∧
    (max 0 (min anim.frame_index ((frames.length : ℤ) - 1))).toNat < frames.length ∧
    (renderSelect anim).isSome := by
  have hlen : 0 < frames.length := List.length_pos.mpr hne
  refine ⟨le_max_left _ _, by omega, by omega, ?_⟩
  rw [renderSelect, hf]
  simp only [if_neg hne, Option.isSome_iff_ne_none, ne_eq, List.getElem?_eq_none_iff,
    not_le]
  omega

/-- A sprite whose stored frame index (−1) is out of bounds for its
single-frame active animation, as after a single-frame PINGPONG advance. -/
def strandedSprite : PaperSprite :=
  { animations := [("default", [5])], current_anim := "default", frame_index := -1 }

/-- Witness for C10 at the stranded sprite: a frame is still selected. -/
theorem c10_render_clamp_witness : (renderSelect strandedSprite).isSome :=
  (c10_render_clamp strandedSprite [5] rfl (by decide)).2.2.2

/-! ### Facing updates (`main.py` lines 151-154 and 190-193)

Input vectors are idealised as real pairs. Normalization (`v.normalize()`
on line 146, `(target_vec - current_vec).normalize()` on line 186)
scales both components by the same positive factor `1/|v|`, so the
sign and magnitude-comparison tests of the facing branches are written
on the vector they receive. -/

/-- Lines 151-154 of `InputSystem.update`: facing from the movement
vector — horizontal priority: any non-zero x decides LEFT/RIGHT, y is
consulted only when x is exactly zero; a zero vector (unreachable under
the `length > 0` guard of line 145) leaves the facing unchanged. -/
noncomputable def inputFacing (v : ℝ × ℝ) (old : String) : String :=
  if v.1 ≠ 0 then (if v.1 > 0 then "RIGHT" else "LEFT")
  else if v.2 ≠ 0 then (if v.2 > 0 then "DOWN" else "UP")
  else old

/-- Lines 190-193 of `AISystem.update`: facing from the unit direction
toward the waypoint — magnitude-based: LEFT/RIGHT only when
`|direction.x| > |direction.y|`, else UP/DOWN by the sign of y. -/
noncomputable def aiFacing (d : ℝ × ℝ) : String :=
  if |d.1| > |d.2| then (if d.1 > 0 then "RIGHT" else "LEFT")
  else (if d.2 > 0 then "DOWN" else "UP")

/-! ### Claim C7 -/

/-- C7: the two facing tie-break policies are distinct as specified:
for every non-zero vector the input system sets facing by the sign of x
whenever x ≠ 0 (y is consulted only when x = 0 exactly), while the AI
system sets facing by the axis of larger magnitude; on the unit
direction (3/5, 4/5) the two policies disagree (RIGHT vs DOWN). -/
theorem c7_facing_policies_distinct :
    (∀ (v : ℝ × ℝ) (old : String), v.1 ≠ 0 →
      inputFacing v old = (if v.1 > 0 then "RIGHT" else "LEFT")) ∧
    (∀ (v : ℝ × ℝ) (old : String), v ≠ (0, 0) → v.1 = 0 →
      inputFacing v old = (if v.2 > 0 then "DOWN" else "UP")) ∧
    (∀ d : ℝ × ℝ, |d.1| > |d.2| →
      aiFacing d = (if d.1 > 0 then "RIGHT" else "LEFT")) ∧
    (∀ d : ℝ × ℝ, ¬(|d.1| > |d.2|) →
      aiFacing d = (if d.2 > 0 then "DOWN" else "UP")) ∧
    inputFacing ((3 : ℝ)/5, (4 : ℝ)/5) "DOWN" = "RIGHT" ∧
    aiFacing ((3 : ℝ)/5, (4 : ℝ)/5) = "DOWN" := by
  refine ⟨?_, ?_, ?_, ?_, ?_, ?_⟩
  · intro v old h
    rw [inputFacing, if_pos h]
  · intro v old hv h
    have h2 : v.2 ≠ 0 := by
      intro h2
      exact hv (Prod.ext h h2)
    rw [inputFacing, if_neg (by simpa using h), if_pos h2]
  · intro d h
    rw [aiFacing, if_pos h]
  · intro d h
    rw [aiFacing, if_neg h]
  · rw [inputFacing, if_pos (by norm_num), if_pos (by norm_num)]
  · rw [aiFacing, if_neg (by rw [abs_of_pos (by norm_num), abs_of_pos (by norm_num)]; norm_num),
      if_pos (by norm_num)]

/-- Witness for C7 at concrete vectors: vertical-only input faces UP,
and a direction with dominant x faces RIGHT under the AI rule. -/
theorem c7_facing_policies_distinct_witness :
    inputFacing ((0 : ℝ), (-2 : ℝ)) "DOWN" = "UP" ∧
    aiFacing ((2 : ℝ), (1 : ℝ)) = "RIGHT" := by
  constructor
  · rw [c7_facing_policies_distinct.2.1 (0, -2) "DOWN"
      (by simp [Prod.ext_iff]) rfl]
    norm_num
  · rw [c7_facing_policies_distinct.2.2.1 (2, 1)
      (by rw [abs_of_pos (by norm_num : (0:ℝ) < 2), abs_of_pos (by norm_num : (0:ℝ) < 1)]; norm_num)]
    norm_num

/-! ### Physics components (`main.py` lines 62-75, 83-86) -/

/-- `Transform` dataclass (lines 62-67): float position, int extents. -/
structure Transform where
  x : ℝ
  y : ℝ
  width : ℤ := 16
  height : ℤ := 16

/-- `RigidBody` dataclass (lines 69-75): velocity and acceleration
vectors, friction coefficient, max speed. -/
structure RigidBody where
  velocity : ℝ × ℝ := (0, 0)
  acceleration : ℝ × ℝ := (0, 0)
  friction : ℝ := 10
  max_speed : ℝ := 80

/-- `Collider` dataclass (lines 83-86). -/
structure Collider where
  is_solid : Bool := true
  tag : String := "default"

/-! ### pygame primitives for physics -/

/-- `pygame.math.Vector2.length()`: Euclidean length. -/
noncomputable def vlen (v : ℝ × ℝ) : ℝ := Real.sqrt (v.1 ^ 2 + v.2 ^ 2)

theorem vlen_nonneg (v : ℝ × ℝ) : 0 ≤ vlen v := Real.sqrt_nonneg _

theorem vlen_zero : vlen (0, 0) = 0 := by
  simp [vlen]

theorem vlen_eq_zero_iff (v : ℝ × ℝ) : vlen v = 0 ↔ v = (0, 0) := by
  rw [vlen, Real.sqrt_eq_zero (by positivity)]
  constructor
  · intro h
    have h1 : v.1 ^ 2 = 0 ∧ v.2 ^ 2 = 0 :=
      (add_eq_zero_iff_of_nonneg (sq_nonneg _) (sq_nonneg _)).mp h
    have : v.1 = 0 := pow_eq_zero_iff (n := 2) (by norm_num) |>.mp h1.1
    have : v.2 = 0 := pow_eq_zero_iff (n := 2) (by norm_num) |>.mp h1.2
    exact Prod.ext (by assumption) (by assumption)
  · intro h
    rw [h]
    norm_num

theorem vlen_pos_iff (v : ℝ × ℝ) : 0 < vlen v ↔ v ≠ (0, 0) := by
  constructor
  · intro h hv
    rw [hv, vlen_zero] at h
    exact lt_irrefl 0 h
  · intro h
    rcases lt_or_eq_of_le (vlen_nonneg v) with hlt | heq
    · exact hlt
    · exact absurd ((vlen_eq_zero_iff v).mp heq.symm) h

theorem vlen_smul (c : ℝ) (v : ℝ × ℝ) : vlen (c • v) = |c| * vlen v := by
  rw [vlen, vlen, Prod.smul_fst, Prod.smul_snd, smul_eq_mul, smul_eq_mul]
  rw [mul_pow, mul_pow, ← mul_add, Real.sqrt_mul (sq_nonneg c), Real.sqrt_sq_eq_abs]

/-- A `pygame.Rect`: integer left/top/width/height. Float position
arguments are truncated toward zero (C `int` conversion). -/
structure PyRect where
  left : ℤ
  top : ℤ
  w : ℤ
  h : ℤ

/-- Python/C truncation toward zero. -/
noncomputable def pytrunc (x : ℝ) : ℤ := if 0 ≤ x then ⌊x⌋ else ⌈x⌉

theorem pytrunc_intCast (n : ℤ) : pytrunc (n : ℝ) = n := by
  unfold pytrunc
  split_ifs <;> simp

/-- `pygame.Rect(x, y, w, h)` with float position. -/
noncomputable def mkRect (x y : ℝ) (w h : ℤ) : PyRect :=
  ⟨pytrunc x, pytrunc y, w, h⟩

/-- `Rect.colliderect`: strict overlap on both axes
(`a.left < b.right and a.top < b.bottom and a.right > b.left and
a.bottom > b.top`). -/
def collide (a b : PyRect) : Prop :=
  a.left < b.left + b.w ∧ a.top < b.top + b.h ∧
  a.left + a.w > b.left ∧ a.top + a.h > b.top

instance (a b : PyRect) : Decidable (collide a b) := by
  unfold collide
  infer_instance

/-! ### PhysicsSystem (`main.py` lines 195-256) -/

/-- Step 1 of `PhysicsSystem.update` (lines 207-217): integrate
acceleration into velocity when present, otherwise apply friction:
`friction_vec = velocity.normalize() * friction * 50 * dt`; zero the
velocity when it is shorter than the friction vector, else subtract. -/
noncomputable def frictionStep (dt : ℝ) (rb : RigidBody) : RigidBody :=
  if vlen rb.acceleration > 0 then
    { rb with velocity := rb.velocity + dt • rb.acceleration }
  else if vlen rb.velocity > 0 then
    let friction_vec := (rb.friction * 50 * dt / vlen rb.velocity) • rb.velocity
    if vlen rb.velocity < vlen friction_vec then { rb with velocity := (0, 0) }
    else { rb with velocity := rb.velocity - friction_vec }
  else rb

/-- Speed clamp (lines 219-221): `scale_to_length(max_speed)` rescales
the velocity to the exact max speed, preserving direction. -/
noncomputable def clampSpeed (rb : RigidBody) : RigidBody :=
  if vlen rb.velocity > rb.max_speed then
    { rb with velocity := (rb.max_speed / vlen rb.velocity) • rb.velocity }
  else rb

/-- Steps 1-3 (lines 207-224): integrate or apply friction, clamp the
speed, reset the acceleration channel. -/
noncomputable def integrate (dt : ℝ) (rb : RigidBody) : RigidBody :=
  { clampSpeed (frictionStep dt rb) with acceleration := (0, 0) }

/-- Movement plus collision resolution on the X axis (lines 226-240).
The entity rect is computed once from the moved position and is not
recomputed after a snap; each wall is an (entity id, Transform,
Collider) triple, the mover skips itself and non-solid colliders, and
on overlap the position snaps to the touching edge by the sign of the
current x velocity, which is then zeroed. -/
noncomputable def resolveX (dt : ℝ) (selfId : ℕ) (pos : Transform) (rb : RigidBody)
    (walls : List (ℕ × Transform × Collider)) : Transform × RigidBody :=
  let pos := { pos with x := pos.x + rb.velocity.1 * dt }
  let eRect := mkRect pos.x pos.y pos.width pos.height
  walls.foldl (fun pr w =>
    if w.1 = selfId then pr
    else if w.2.2.is_solid = false then pr
    else
      let wallRect := mkRect w.2.1.x w.2.1.y w.2.1.width w.2.1.height
      if collide eRect wallRect then
        let pos1 := if pr.2.velocity.1 > 0 then
            { pr.1 with x := ((wallRect.left - pos.width : ℤ) : ℝ) } else pr.1
        let pos2 := if pr.2.velocity.1 < 0 then
            { pos1 with x := ((wallRect.left + wallRect.w : ℤ) : ℝ) } else pos1
        (pos2, { pr.2 with velocity := (0, pr.2.velocity.2) })
      else pr) (pos, rb)

/-- Movement plus collision resolution on the Y axis (lines 242-256),
identical to the X pass with top/bottom edges. -/
noncomputable def resolveY (dt : ℝ) (selfId : ℕ) (pos : Transform) (rb : RigidBody)
    (walls : List (ℕ × Transform × Collider)) : Transform × RigidBody :=
  let pos := { pos with y := pos.y + rb.velocity.2 * dt }
  let eRect := mkRect pos.x pos.y pos.width pos.height
  walls.foldl (fun pr w =>
    if w.1 = selfId then pr
    else if w.2.2.is_solid = false then pr
    else
      let wallRect := mkRect w.2.1.x w.2.1.y w.2.1.width w.2.1.height
      if collide eRect wallRect then
        let pos1 := if pr.2.velocity.2 > 0 then
            { pr.1 with y := ((wallRect.top - pos.height : ℤ) : ℝ) } else pr.1
        let pos2 := if pr.2.velocity.2 < 0 then
            { pos1 with y := ((wallRect.top + wallRect.h : ℤ) : ℝ) } else pos1
        (pos2, { pr.2 with velocity := (pr.2.velocity.1, 0) })
      else pr) (pos, rb)

/-- One `PhysicsSystem.update` tick for one movable entity (lines
203-256): integrate/clamp/reset, then the X pass, then the Y pass
against the same wall snapshot. -/
noncomputable def physTick (dt : ℝ) (selfId : ℕ) (pos : Transform) (rb : RigidBody)
    (walls : List (ℕ × Transform × Collider)) : Transform × RigidBody :=
  let rb := integrate dt rb
  let pr := resolveX dt selfId pos rb walls
  resolveY dt selfId pr.1 pr.2 walls

/-- `n` consecutive physics ticks for one entity. -/
noncomputable def physIter (dt : ℝ) (selfId : ℕ)
    (walls : List (ℕ × Transform × Collider)) :
    ℕ → Transform × RigidBody → Transform × RigidBody
  | 0, pr => pr
  | n + 1, pr =>
    let prev := physIter dt selfId walls n pr
    physTick dt selfId prev.1 prev.2 walls

/-! ### Generic fold invariant -/

theorem foldl_preserves {α β : Type _} (f : β → α → β) (P : β → Prop) :
    ∀ (l : List α) (init : β), P init → (∀ b a, P b → P (f b a)) →
      P (l.foldl f init) := by
  intro l
  induction l with
  | nil => intro init h _; exact h
  | cons a rest ih =>
    intro init h hstep
    exact ih (f init a) (hstep init a h) hstep

/-! ### Projection lemmas for the physics step -/

theorem frictionStep_max_speed (dt : ℝ) (rb : RigidBody) :
    (frictionStep dt rb).max_speed = rb.max_speed := by
  simp only [frictionStep]
  split_ifs <;> rfl

theorem frictionStep_friction (dt : ℝ) (rb : RigidBody) :
    (frictionStep dt rb).friction = rb.friction := by
  simp only [frictionStep]
  split_ifs <;> rfl

theorem clampSpeed_max_speed (rb : RigidBody) :
    (clampSpeed rb).max_speed = rb.max_speed := by
  unfold clampSpeed
  split_ifs <;> rfl

theorem clampSpeed_friction (rb : RigidBody) :
    (clampSpeed rb).friction = rb.friction := by
  unfold clampSpeed
  split_ifs <;> rfl

theorem integrate_acceleration (dt : ℝ) (rb : RigidBody) :
    (integrate dt rb).acceleration = (0, 0) := rfl

theorem integrate_max_speed (dt : ℝ) (rb : RigidBody) :
    (integrate dt rb).max_speed = rb.max_speed := by
  show (clampSpeed (frictionStep dt rb)).max_speed = rb.max_speed
  rw [clampSpeed_max_speed, frictionStep_max_speed]

theorem integrate_friction (dt : ℝ) (rb : RigidBody) :
    (integrate dt rb).friction = rb.friction := by
  show (clampSpeed (frictionStep dt rb)).friction = rb.friction
  rw [clampSpeed_friction, frictionStep_friction]

/-- The Y pass never touches the x position, the extents, or the x
velocity. -/
theorem resolveY_preserves_x (dt : ℝ) (selfId : ℕ) (pos : Transform) (rb : RigidBody)
    (walls : List (ℕ × Transform × Collider)) :
    (resolveY dt selfId pos rb walls).1.x = pos.x ∧
    (resolveY dt selfId pos rb walls).1.width = pos.width ∧
    (resolveY dt selfId pos rb walls).2.velocity.1 = rb.velocity.1 := by
  unfold resolveY
  refine foldl_preserves _ (fun pr : Transform × RigidBody =>
    pr.1.x = pos.x ∧ pr.1.width = pos.width ∧
    pr.2.velocity.1 = rb.velocity.1) _ _ ⟨rfl, rfl, rfl⟩ ?_
  intro b a hb
  obtain ⟨h1, h2, h3⟩ := hb
  dsimp only
  split_ifs <;> simp_all

/-! ### Claim C5 -/

/-- C5: a movable entity whose post-integration x velocity `s` is
positive, whose moved box overlaps the single solid wall, with
`s·dt` smaller than the wall's thickness, ends the tick with its right
edge exactly on the wall box's left edge, x velocity zero, and no
residual x overlap with the wall box (its truncated right edge does not
exceed the wall's left edge). -/
theorem c5_wall_collision_snap (dt : ℝ) (selfId wid : ℕ) (pos : Transform)
    (rb : RigidBody) (wt : Transform) (wc : Collider)
    (hid : wid ≠ selfId) (hsolid : wc.is_solid = true)
    (hs : 0 < (integrate dt rb).velocity.1)
    (hcol : collide
      (mkRect (pos.x + (integrate dt rb).velocity.1 * dt) pos.y pos.width pos.height)
      (mkRect wt.x wt.y wt.width wt.height))
    (hthin : (integrate dt rb).velocity.1 * dt < (wt.width : ℝ)) :
    (physTick dt selfId pos rb [(wid, wt, wc)]).1.x + (pos.width : ℝ)
      = ((pytrunc wt.x : ℤ) : ℝ) ∧
    (physTick dt selfId pos rb [(wid, wt, wc)]).2.velocity.1 = 0 ∧
    pytrunc (physTick dt selfId pos rb [(wid, wt, wc)]).1.x + pos.width
      ≤ pytrunc wt.x := by
  have hX : resolveX dt selfId pos (integrate dt rb) [(wid, wt, wc)] =
      ({ pos with x := ((pytrunc wt.x - pos.width : ℤ) : ℝ) },
       { integrate dt rb with velocity := (0, (integrate dt rb).velocity.2) }) := by
    unfold resolveX
    rw [List.foldl_cons, List.foldl_nil]
    rw [if_neg hid, if_neg (by simp [hsolid])]
    dsimp only
    rw [if_pos hcol, if_pos hs, if_neg (asymm hs)]
    rfl
  have hfin : physTick dt selfId pos rb [(wid, wt, wc)] =
      resolveY dt selfId ({ pos with x := ((pytrunc wt.x - pos.width : ℤ) : ℝ) })
        ({ integrate dt rb with velocity := (0, (integrate dt rb).velocity.2) })
        [(wid, wt, wc)] := by
    unfold physTick
    dsimp only
    rw [hX]
  obtain ⟨ha, hb, hc⟩ := resolveY_preserves_x dt selfId
    ({ pos with x := ((pytrunc wt.x - pos.width : ℤ) : ℝ) })
    ({ integrate dt rb with velocity := (0, (integrate dt rb).velocity.2) })
    [(wid, wt, wc)]
  rw [hfin]
  refine ⟨?_, ?_, ?_⟩
  · rw [ha]
    push_cast
    ring
  · rw [hc]
  · rw [ha, pytrunc_intCast]
    omega

/-- Concrete mover for the C5 witness: a 16×16 entity at the origin. -/
noncomputable def c5pos : Transform := ⟨0, 0, 16, 16⟩

/-- Concrete rigid body: velocity (3,0), acceleration (3,0), so the
integration step yields x velocity 6 ≤ max speed. -/
noncomputable def c5rb : RigidBody := ⟨(3, 0), (3, 0), 10, 80⟩

/-- Concrete solid wall: a 32×32 block whose left edge is at x = 20. -/
noncomputable def c5wt : Transform := ⟨20, 0, 32, 32⟩

def c5wc : Collider := ⟨true, "wall"⟩

/-- Witness for C5: with dt = 1 the mover ends flush against the wall
(right edge at the wall's left edge) with x velocity zero. -/
theorem c5_wall_collision_snap_witness :
    (physTick 1 0 c5pos c5rb [(1, c5wt, c5wc)]).1.x + (c5pos.width : ℝ)
      = ((pytrunc c5wt.x : ℤ) : ℝ) ∧
    (physTick 1 0 c5pos c5rb [(1, c5wt, c5wc)]).2.velocity.1 = 0 := by
  have ha : 0 < vlen c5rb.acceleration := by
    rw [vlen_pos_iff]
    norm_num [c5rb, Prod.ext_iff]
  have hv1 : (frictionStep 1 c5rb).velocity = (6, 0) := by
    rw [frictionStep, if_pos ha]
    show c5rb.velocity + (1 : ℝ) • c5rb.acceleration = (6, 0)
    norm_num [c5rb, Prod.smul_mk, Prod.mk_add_mk, Prod.ext_iff]
  have h36 : vlen ((6 : ℝ), (0 : ℝ)) = 6 := by
    show Real.sqrt ((6 : ℝ) ^ 2 + (0 : ℝ) ^ 2) = 6
    rw [show ((6 : ℝ) ^ 2 + (0 : ℝ) ^ 2) = 6 ^ 2 by norm_num]
    exact Real.sqrt_sq (by norm_num)
  have hng : ¬ (vlen (frictionStep 1 c5rb).velocity > (frictionStep 1 c5rb).max_speed) := by
    rw [hv1, h36, frictionStep_max_speed]
    norm_num [c5rb]
  have hv : (integrate 1 c5rb).velocity = (6, 0) := by
    show (clampSpeed (frictionStep 1 c5rb)).velocity = (6, 0)
    rw [clampSpeed, if_neg hng]
    exact hv1
  have hv1' : (integrate 1 c5rb).velocity.1 = 6 := by rw [hv]
  have hs : 0 < (integrate 1 c5rb).velocity.1 := by
    rw [hv1']
    norm_num
  have hx6 : c5pos.x + (integrate 1 c5rb).velocity.1 * 1 = 6 := by
    rw [hv1']
    norm_num [c5pos]
  have hcol : collide
      (mkRect (c5pos.x + (integrate 1 c5rb).velocity.1 * 1) c5pos.y c5pos.width c5pos.height)
      (mkRect c5wt.x c5wt.y c5wt.width c5wt.height) := by
    rw [hx6]
    show collide (mkRect 6 c5pos.y c5pos.width c5pos.height)
      (mkRect c5wt.x c5wt.y c5wt.width c5wt.height)
    norm_num [collide, mkRect, pytrunc, c5pos, c5wt]
  have hthin : (integrate 1 c5rb).velocity.1 * 1 < ((c5wt.width : ℤ) : ℝ) := by
    rw [hv1']
    norm_num [c5wt]
  have h := c5_wall_collision_snap 1 0 1 c5pos c5rb c5wt c5wc (by norm_num) rfl hs hcol hthin
  exact ⟨h.1, h.2.1⟩

/-! ### Friction decay lemmas (toward claim C6) -/

/-- The friction vector `normalize(v) * k` has length exactly `k`
for `k ≥ 0` and `v ≠ 0`. -/
theorem friction_vec_len (k : ℝ) (v : ℝ × ℝ) (hk : 0 ≤ k) (hv : v ≠ (0, 0)) :
    vlen ((k / vlen v) • v) = k := by
  have hL : 0 < vlen v := (vlen_pos_iff v).mpr hv
  rw [vlen_smul, abs_of_nonneg (div_nonneg hk (vlen_nonneg v)),
    div_mul_cancel₀ _ (ne_of_gt hL)]

/-- With no acceleration and zero velocity the friction step is inert. -/
theorem frictionStep_zero_velocity (dt : ℝ) (rb : RigidBody)
    (hacc : rb.acceleration = (0, 0)) (hv : rb.velocity = (0, 0)) :
    (frictionStep dt rb).velocity = (0, 0) := by
  rw [frictionStep, if_neg (by rw [hacc, vlen_zero]; exact lt_irrefl 0),
    if_neg (by rw [hv, vlen_zero]; exact lt_irrefl 0)]
  exact hv

/-- The clamp keeps the velocity a nonnegative multiple of itself and
never increases its length (for a nonnegative max speed). -/
theorem clampSpeed_velocity_decay (rb : RigidBody) (hmax : 0 ≤ rb.max_speed) :
    (∃ d : ℝ, 0 ≤ d ∧ (clampSpeed rb).velocity = d • rb.velocity) ∧
    vlen (clampSpeed rb).velocity ≤ vlen rb.velocity := by
  rw [clampSpeed]
  split_ifs with h
  · have hL : 0 < vlen rb.velocity := lt_of_le_of_lt hmax h
    refine ⟨⟨rb.max_speed / vlen rb.velocity,
      div_nonneg hmax (vlen_nonneg _), rfl⟩, ?_⟩
    show vlen ((rb.max_speed / vlen rb.velocity) • rb.velocity) ≤ vlen rb.velocity
    rw [vlen_smul, abs_of_nonneg (div_nonneg hmax (vlen_nonneg _)),
      div_mul_cancel₀ _ (ne_of_gt hL)]
    exact le_of_lt h
  · exact ⟨⟨1, zero_le_one, (one_smul ℝ _).symm⟩, le_refl _⟩

/-- One friction application on a non-zero velocity with no
acceleration: the result is a nonnegative multiple of the old velocity,
and is either exactly zero or exactly `k = friction·50·dt` shorter. -/
theorem frictionStep_velocity_decay (dt : ℝ) (rb : RigidBody)
    (hacc : rb.acceleration = (0, 0)) (hk : 0 < rb.friction * 50 * dt)
    (hv : rb.velocity ≠ (0, 0)) :
    (∃ d : ℝ, 0 ≤ d ∧ (frictionStep dt rb).velocity = d • rb.velocity) ∧
    ((frictionStep dt rb).velocity = (0, 0) ∨
      vlen (frictionStep dt rb).velocity
        = vlen rb.velocity - rb.friction * 50 * dt) := by
  have hL : 0 < vlen rb.velocity := (vlen_pos_iff _).mpr hv
  have hna : ¬ (vlen rb.acceleration > 0) := by
    rw [hacc, vlen_zero]
    exact lt_irrefl 0
  have hfveq : vlen ((rb.friction * 50 * dt / vlen rb.velocity) • rb.velocity)
      = rb.friction * 50 * dt := friction_vec_len _ _ (le_of_lt hk) hv
  rw [frictionStep, if_neg hna, if_pos hL]
  dsimp only
  split_ifs with hlt
  · exact ⟨⟨0, le_refl 0, (zero_smul ℝ _).symm⟩, Or.inl rfl⟩
  · rw [hfveq] at hlt
    have hkL : rb.friction * 50 * dt ≤ vlen rb.velocity := not_lt.mp hlt
    have hc1 : rb.friction * 50 * dt / vlen rb.velocity ≤ 1 :=
      (div_le_one hL).mpr hkL
    have heq : rb.velocity -
        (rb.friction * 50 * dt / vlen rb.velocity) • rb.velocity =
        (1 - rb.friction * 50 * dt / vlen rb.velocity) • rb.velocity := by
      rw [sub_smul, one_smul]
    refine ⟨⟨1 - rb.friction * 50 * dt / vlen rb.velocity,
      sub_nonneg.mpr hc1, heq⟩, Or.inr ?_⟩
    show vlen (rb.velocity - _) = _
    rw [heq, vlen_smul, abs_of_nonneg (sub_nonneg.mpr hc1), sub_mul, one_mul,
      div_mul_cancel₀ _ (ne_of_gt hL)]

/-- Zero velocity is absorbing for the whole integration step. -/
theorem integrate_velocity_zero (dt : ℝ) (rb : RigidBody)
    (hacc : rb.acceleration = (0, 0)) (hv : rb.velocity = (0, 0))
    (hmax : 0 ≤ rb.max_speed) :
    (integrate dt rb).velocity = (0, 0) := by
  have hfs : (frictionStep dt rb).velocity = (0, 0) :=
    frictionStep_zero_velocity dt rb hacc hv
  show (clampSpeed (frictionStep dt rb)).velocity = (0, 0)
  rw [clampSpeed, if_neg (by
    rw [hfs, vlen_zero, frictionStep_max_speed]
    exact not_lt.mpr hmax)]
  exact hfs

/-- One full integration of an acceleration-free body: the velocity is
a nonnegative multiple of the old one and is either zero or at least
`k = friction·50·dt` shorter. -/
theorem integrate_velocity_decay (dt : ℝ) (rb : RigidBody)
    (hacc : rb.acceleration = (0, 0)) (hk : 0 < rb.friction * 50 * dt)
    (hmax : 0 ≤ rb.max_speed) :
    (∃ d : ℝ, 0 ≤ d ∧ (integrate dt rb).velocity = d • rb.velocity) ∧
    ((integrate dt rb).velocity = (0, 0) ∨
      vlen (integrate dt rb).velocity
        ≤ vlen rb.velocity - rb.friction * 50 * dt) := by
  have hiv : (integrate dt rb).velocity
      = (clampSpeed (frictionStep dt rb)).velocity := rfl
  by_cases hv : rb.velocity = (0, 0)
  · have hz := integrate_velocity_zero dt rb hacc hv hmax
    refine ⟨⟨1, zero_le_one, ?_⟩, Or.inl hz⟩
    rw [hz, hv]
    simp
  · obtain ⟨⟨d1, hd1, hfd⟩, hdisj⟩ := frictionStep_velocity_decay dt rb hacc hk hv
    have hFmax : 0 ≤ (frictionStep dt rb).max_speed := by
      rw [frictionStep_max_speed]
      exact hmax
    obtain ⟨⟨d2, hd2, hcd⟩, hclen⟩ :=
      clampSpeed_velocity_decay (frictionStep dt rb) hFmax
    constructor
    · refine ⟨d2 * d1, mul_nonneg hd2 hd1, ?_⟩
      rw [hiv, hcd, hfd, smul_smul]
    · rcases hdisj with hzero | hlen
      · left
        rw [hiv, hcd, hzero]
        simp
      · right
        rw [hiv]
        calc vlen (clampSpeed (frictionStep dt rb)).velocity
            ≤ vlen (frictionStep dt rb).velocity := hclen
          _ = vlen rb.velocity - rb.friction * 50 * dt := hlen

/-- With no walls a physics tick leaves the rigid body exactly as the
integration step produced it. -/
theorem physTick_nil_rb (dt : ℝ) (selfId : ℕ) (pos : Transform) (rb : RigidBody) :
    (physTick dt selfId pos rb []).2 = integrate dt rb := rfl

/-- Invariants of iterated wall-free ticks for an acceleration-free
body: the acceleration channel stays reset, friction and max speed are
unchanged, the velocity stays a nonnegative multiple of the initial
one, and its length drops by at least `k = friction·50·dt` per tick
until it is exactly zero. -/
theorem physIter_nil_invariants (dt : ℝ) (selfId : ℕ) (pos : Transform)
    (rb : RigidBody) (hacc : rb.acceleration = (0, 0))
    (hk : 0 < rb.friction * 50 * dt) (hmax : 0 ≤ rb.max_speed) (n : ℕ) :
    (physIter dt selfId [] n (pos, rb)).2.acceleration = (0, 0) ∧
    (physIter dt selfId [] n (pos, rb)).2.friction = rb.friction ∧
    (physIter dt selfId [] n (pos, rb)).2.max_speed = rb.max_speed ∧
    (∃ c : ℝ, 0 ≤ c ∧
      (physIter dt selfId [] n (pos, rb)).2.velocity = c • rb.velocity) ∧
    ((physIter dt selfId [] n (pos, rb)).2.velocity = (0, 0) ∨
      vlen (physIter dt selfId [] n (pos, rb)).2.velocity
        ≤ vlen rb.velocity - n * (rb.friction * 50 * dt)) := by
  induction n with
  | zero =>
    refine ⟨hacc, rfl, rfl, ⟨1, zero_le_one, (one_smul ℝ _).symm⟩, Or.inr ?_⟩
    show vlen rb.velocity ≤ vlen rb.velocity - (0 : ℕ) * (rb.friction * 50 * dt)
    norm_num
  | succ n ih =>
    obtain ⟨iha, ihf, ihm, ⟨c, hc, hcv⟩, ihd⟩ := ih
    have hstep : (physIter dt selfId [] (n + 1) (pos, rb)).2
        = integrate dt (physIter dt selfId [] n (pos, rb)).2 := by
      rw [physIter]
      exact physTick_nil_rb dt selfId _ _
    have hk' : 0 < (physIter dt selfId [] n (pos, rb)).2.friction * 50 * dt := by
      rw [ihf]
      exact hk
    have hmax' : 0 ≤ (physIter dt selfId [] n (pos, rb)).2.max_speed := by
      rw [ihm]
      exact hmax
    obtain ⟨⟨d, hd, hdv⟩, hdd⟩ :=
      integrate_velocity_decay dt _ iha hk' hmax'
    refine ⟨by rw [hstep]; exact integrate_acceleration dt _,
      by rw [hstep, integrate_friction]; exact ihf,
      by rw [hstep, integrate_max_speed]; exact ihm,
      ⟨d * c, mul_nonneg hd hc, by rw [hstep, hdv, hcv, smul_smul]⟩, ?_⟩
    rcases hdd with hz | hlen
    · left
      rw [hstep]
      exact hz
    · rcases ihd with ihz | ihlen
      · exfalso
        rw [ihz, vlen_zero] at hlen
        have := vlen_nonneg (integrate dt (physIter dt selfId [] n (pos, rb)).2).velocity
        rw [ihf] at hlen
        linarith
      · right
        rw [hstep]
        rw [ihf] at hlen
        push_cast
        calc vlen (integrate dt (physIter dt selfId [] n (pos, rb)).2).velocity
            ≤ vlen (physIter dt selfId [] n (pos, rb)).2.velocity
              - rb.friction * 50 * dt := hlen
          _ ≤ vlen rb.velocity - n * (rb.friction * 50 * dt)
              - rb.friction * 50 * dt := by linarith
          _ = vlen rb.velocity - (n + 1) * (rb.friction * 50 * dt) := by ring

/-! ### Claim C6 -/

/-- C6: for a movable entity with positive friction, zero acceleration
and no collisions, iterated ticks with a fixed dt > 0 drive the
velocity to exactly (0,0) after finitely many ticks; at every tick the
velocity is a nonnegative multiple of the initial velocity (so no
component ever changes sign); and the friction branch itself zeroes the
velocity exactly whenever `|frictionVec| ≥ |velocity|` — the friction
vector `normalize(velocity)·friction·50·dt` having length exactly
`friction·50·dt` — and otherwise subtracts the friction vector. -/
theorem c6_friction_convergence (dt : ℝ) (selfId : ℕ) (pos : Transform)
    (rb : RigidBody) (hacc : rb.acceleration = (0, 0)) (hfr : 0 < rb.friction)
    (hdt : 0 < dt) (hmax : 0 ≤ rb.max_speed) :
    (∃ N : ℕ, ∀ n, N ≤ n →
      (physIter dt selfId [] n (pos, rb)).2.velocity = (0, 0)) ∧
    (∀ n, ∃ c : ℝ, 0 ≤ c ∧
      (physIter dt selfId [] n (pos, rb)).2.velocity = c • rb.velocity) ∧
    (∀ rb' : RigidBody, rb'.acceleration = (0, 0) → rb'.velocity ≠ (0, 0) →
      0 ≤ rb'.friction →
      vlen ((rb'.friction * 50 * dt / vlen rb'.velocity) • rb'.velocity)
          = rb'.friction * 50 * dt ∧
      (vlen rb'.velocity ≤ rb'.friction * 50 * dt →
        (frictionStep dt rb').velocity = (0, 0)) ∧
      (rb'.friction * 50 * dt < vlen rb'.velocity →
        (frictionStep dt rb').velocity = rb'.velocity -
          (rb'.friction * 50 * dt / vlen rb'.velocity) • rb'.velocity)) := by
  have hk : 0 < rb.friction * 50 * dt := by positivity
  refine ⟨?_, ?_, ?_⟩
  · obtain ⟨N, hN⟩ := exists_nat_gt (vlen rb.velocity / (rb.friction * 50 * dt))
    have hNzero : (physIter dt selfId [] N (pos, rb)).2.velocity = (0, 0) := by
      obtain ⟨-, -, -, -, hd⟩ :=
        physIter_nil_invariants dt selfId pos rb hacc hk hmax N
      rcases hd with hz | hlen
      · exact hz
      · exfalso
        have h1 : vlen rb.velocity < N * (rb.friction * 50 * dt) :=
          (div_lt_iff hk).mp hN
        have h2 := vlen_nonneg (physIter dt selfId [] N (pos, rb)).2.velocity
        linarith
    have habs : ∀ m, (physIter dt selfId [] (N + m) (pos, rb)).2.velocity = (0, 0) := by
      intro m
      induction m with
      | zero => exact hNzero
      | succ m ih =>
        obtain ⟨iha, ihf, ihm, -, -⟩ :=
          physIter_nil_invariants dt selfId pos rb hacc hk hmax (N + m)
        have hstep : (physIter dt selfId [] (N + m + 1) (pos, rb)).2
            = integrate dt (physIter dt selfId [] (N + m) (pos, rb)).2 := by
          rw [physIter]
          exact physTick_nil_rb dt selfId _ _
        show (physIter dt selfId [] (N + m + 1) (pos, rb)).2.velocity = (0, 0)
        rw [hstep]
        exact integrate_velocity_zero dt _ iha ih (by rw [ihm]; exact hmax)
    refine ⟨N, fun n hn => ?_⟩
    obtain ⟨m, rfl⟩ : ∃ m, n = N + m := ⟨n - N, (Nat.add_sub_cancel' hn).symm⟩
    exact habs m
  · intro n
    obtain ⟨-, -, -, hc, -⟩ :=
      physIter_nil_invariants dt selfId pos rb hacc hk hmax n
    exact hc
  · intro rb' hacc' hv' hfr'
    have hL : 0 < vlen rb'.velocity := (vlen_pos_iff _).mpr hv'
    have hk0 : 0 ≤ rb'.friction * 50 * dt :=
      mul_nonneg (mul_nonneg hfr' (by norm_num)) (le_of_lt hdt)
    have hna : ¬ (vlen rb'.acceleration > 0) := by
      rw [hacc', vlen_zero]
      exact lt_irrefl 0
    have hfveq : vlen ((rb'.friction * 50 * dt / vlen rb'.velocity) • rb'.velocity)
        = rb'.friction * 50 * dt := friction_vec_len _ _ hk0 hv'
    refine ⟨hfveq, ?_, ?_⟩
    · intro hle
      rw [frictionStep, if_neg hna, if_pos hL]
      dsimp only
      split_ifs with hlt
      · rfl
      · rw [hfveq] at hlt
        have hkL : rb'.friction * 50 * dt = vlen rb'.velocity :=
          le_antisymm (not_lt.mp hlt) hle
        show rb'.velocity - _ • rb'.velocity = (0, 0)
        rw [hkL, div_self (ne_of_gt hL), one_smul, sub_self]
        rfl
    · intro hgt
      rw [frictionStep, if_neg hna, if_pos hL]
      dsimp only
      split_ifs with hlt
      · rw [hfveq] at hlt
        exact absurd hlt (asymm hgt)
      · rfl

/-- Concrete rigid body for the C6 witness: velocity (3,4), zero
acceleration, friction 1, max speed 80. -/
noncomputable def c6rb : RigidBody := ⟨(3, 4), (0, 0), 1, 80⟩

/-- Witness for C6: the concrete body converges to zero velocity. -/
theorem c6_friction_convergence_witness :
    ∃ N : ℕ, ∀ n, N ≤ n →
      (physIter 1 0 [] n (c5pos, c6rb)).2.velocity = (0, 0) :=
  (c6_friction_convergence 1 0 c5pos c6rb rfl (by norm_num [c6rb])
    (by norm_num) (by norm_num [c6rb])).1

/-! ### Remaining component classes and the concrete store
(`main.py` lines 112-121) -/

/-- `AIBehavior` dataclass (lines 112-117). -/
structure AIBehavior where
  state : String := "PATROL"
  patrol_points : List (ℝ × ℝ) := []
  patrol_index : ℕ := 0
  wait_timer : ℝ := 0

/-- `InputControl` marker dataclass (lines 119-121). -/
structure InputControl where
  mk ::

/-- The component classes of `main.py`, used as store kinds (Python
keys the store by `type(component)`). -/
inductive CompType where
  | transformK
  | rigidBodyK
  | movementStateK
  | colliderK
  | paperSpriteK
  | aiBehaviorK
  | inputControlK
deriving DecidableEq

/-- A stored component value: one of the seven component classes. -/
inductive CompVal where
  | transformC (t : Transform)
  | rigidBodyC (r : RigidBody)
  | movementStateC (s : MovementState)
  | colliderC (c : Collider)
  | paperSpriteC (p : PaperSprite)
  | aiBehaviorC (a : AIBehavior)
  | inputControlC (i : InputControl)

/-- `self.ecs.get_component(e, PaperSprite).z_index`, the first sort-key
component of the render order (line 327); a row of the wrong shape is
structural misuse (spec §7) and contributes a default. -/
noncomputable def spriteZ (st : ECSManager CompType CompVal) (e : ℕ) : ℤ :=
  match st.get_component e CompType.paperSpriteK with
  | some (CompVal.paperSpriteC p) => p.z_index
  | _ => 0

/-- `self.ecs.get_component(e, Transform).y`, the second sort-key
component of the render order (line 328). -/
noncomputable def transformY (st : ECSManager CompType CompVal) (e : ℕ) : ℝ :=
  match st.get_component e CompType.transformK with
  | some (CompVal.transformC t) => t.y
  | _ => 0

/-- The Python sort-key comparison of lines 326-329: tuples
`(z_index, y)` compare lexicographically. -/
noncomputable def renderKeyLe (st : ECSManager CompType CompVal) (a b : ℕ) : Bool :=
  decide (spriteZ st a < spriteZ st b ∨
    (spriteZ st a = spriteZ st b ∧ transformY st a ≤ transformY st b))

/-- `RenderSystem.update` lines 325-329: gather every entity holding
Transform + PaperSprite and stable-sort by the (z_index, y) key.
Python's `list.sort` is guaranteed stable; `List.mergeSort` is the
stable sort of the Lean library. -/
noncomputable def renderOrder (st : ECSManager CompType CompVal) : List ℕ :=
  (st.get_entities_with [CompType.transformK, CompType.paperSpriteK]).mergeSort
    (renderKeyLe st)

/-! ### Stability upgrade for the render sort -/

theorem sorted_lt_get_entities_with (m : ECSManager K V) (ks : List K) :
    (m.get_entities_with ks).Pairwise (· < ·) := by
  cases ks with
  | nil => simp [ECSManager.get_entities_with]
  | cons a rest => exact Finset.sort_sorted_lt _

/-- In a strictly ascending list, any two members in order form a
sublist. -/
theorem pair_sublist_of_sorted :
    ∀ (l : List ℕ), l.Pairwise (· < ·) → ∀ a b : ℕ, a ∈ l → b ∈ l → a < b →
      List.Sublist [a, b] l := by
  intro l
  induction l with
  | nil => intro _ a b ha; cases ha
  | cons x xs ih =>
    intro hp a b ha hb hab
    rcases List.mem_cons.mp ha with rfl | ha'
    · have hb' : b ∈ xs := by
        rcases List.mem_cons.mp hb with rfl | h
        · exact absurd hab (lt_irrefl _)
        · exact h
      exact (List.singleton_sublist.mpr hb').cons₂ a
    · rcases List.mem_cons.mp hb with rfl | hb'
      · have := (List.pairwise_cons.mp hp).1 a ha'
        exact absurd (lt_trans this hab) (lt_irrefl _)
      · exact (ih (List.pairwise_cons.mp hp).2 a b ha' hb' hab).cons x

/-- Stability of `mergeSort` over a strictly ascending input, stated
pairwise: any earlier output element relates to any later one by the
sort key, and on key ties (both directions of `le`) the original
ascending order is preserved. -/
theorem mergeSort_pairwise_stable (le : ℕ → ℕ → Bool) (l : List ℕ)
    (hl : l.Pairwise (· < ·))
    (htrans : ∀ (a b c : ℕ), le a b → le b c → le a c)
    (htotal : ∀ (a b : ℕ), le a b || le b a) :
    (l.mergeSort le).Pairwise (fun a b => le a b ∧ (le b a → a ≤ b)) := by
  rw [List.pairwise_iff_getElem]
  intro i j hi hj hij
  have hsorted := List.sorted_mergeSort htrans htotal l
  have hle := List.pairwise_iff_getElem.mp hsorted i j hi hj hij
  refine ⟨hle, fun hba => ?_⟩
  by_contra hab
  have hBA : (l.mergeSort le)[j] < (l.mergeSort le)[i] := not_le.mp hab
  have hmemA : (l.mergeSort le)[i] ∈ l :=
    List.mem_mergeSort.mp (List.getElem_mem _)
  have hmemB : (l.mergeSort le)[j] ∈ l :=
    List.mem_mergeSort.mp (List.getElem_mem _)
  have hsub : List.Sublist [(l.mergeSort le)[j], (l.mergeSort le)[i]] l :=
    pair_sublist_of_sorted l hl _ _ hmemB hmemA hBA
  have hsub2 : List.Sublist [(l.mergeSort le)[j], (l.mergeSort le)[i]] (l.mergeSort le) :=
    List.pair_sublist_mergeSort htrans htotal hba hsub
  obtain ⟨f, hf⟩ := List.sublist_iff_exists_fin_orderEmbedding_get_eq.mp hsub2
  have hnd : (l.mergeSort le).Nodup :=
    (List.Perm.nodup_iff (List.mergeSort_perm l le)).mpr
      (hl.imp (fun h => ne_of_lt h))
  have h0 := hf ⟨0, by norm_num⟩
  have h1 := hf ⟨1, by norm_num⟩
  simp only [List.get_eq_getElem, List.getElem_cons_zero,
    List.getElem_cons_succ] at h0 h1
  have h01 : (⟨0, by norm_num⟩ :
      Fin ([(l.mergeSort le)[j], (l.mergeSort le)[i]].length)) < ⟨1, by norm_num⟩ := by
    rw [Fin.mk_lt_mk]
    norm_num
  have hfm := f.strictMono h01
  have hidx0 : (⟨j, hj⟩ : Fin (l.mergeSort le).length) = f ⟨0, by norm_num⟩ := by
    apply hnd.get_inj_iff.mp
    simp only [List.get_eq_getElem]
    exact h0
  have hidx1 : (⟨i, hi⟩ : Fin (l.mergeSort le).length) = f ⟨1, by norm_num⟩ := by
    apply hnd.get_inj_iff.mp
    simp only [List.get_eq_getElem]
    exact h1
  have : j < i := by
    have := hfm
    rw [← hidx0, ← hidx1] at this
    exact this
  omega

theorem renderKeyLe_trans (st : ECSManager CompType CompVal) :
    ∀ a b c : ℕ, renderKeyLe st a b → renderKeyLe st b c → renderKeyLe st a c := by
  intro a b c hab hbc
  simp only [renderKeyLe, decide_eq_true_eq] at hab hbc ⊢
  rcases hab with h1 | ⟨h1, h2⟩ <;> rcases hbc with h3 | ⟨h3, h4⟩
  · exact Or.inl (lt_trans h1 h3)
  · exact Or.inl (lt_of_lt_of_eq h1 h3)
  · exact Or.inl (lt_of_eq_of_lt h1 h3)
  · exact Or.inr ⟨h1.trans h3, le_trans h2 h4⟩

theorem renderKeyLe_total (st : ECSManager CompType CompVal) :
    ∀ a b : ℕ, renderKeyLe st a b || renderKeyLe st b a := by
  intro a b
  simp only [Bool.or_eq_true, renderKeyLe, decide_eq_true_eq]
  rcases lt_trichotomy (spriteZ st a) (spriteZ st b) with h | h | h
  · exact Or.inl (Or.inl h)
  · rcases le_total (transformY st a) (transformY st b) with hy | hy
    · exact Or.inl (Or.inr ⟨h, hy⟩)
    · exact Or.inr (Or.inr ⟨h.symm, hy⟩)
  · exact Or.inr (Or.inl h)

/-- The draw order of the claim: z-index ascending, then y ascending,
ties broken by entity-creation order (ascending entity id). -/
def renderFullLe (st : ECSManager CompType CompVal) (a b : ℕ) : Prop :=
  spriteZ st a < spriteZ st b ∨
  (spriteZ st a = spriteZ st b ∧ (transformY st a < transformY st b ∨
    (transformY st a = transformY st b ∧ a ≤ b)))

/-! ### Claim C8 -/

/-- C8: the render-ordering step produces exactly the entities holding
Transform + PaperSprite (a permutation of the query result), sorted by
z-index ascending, then y ascending, with ties in entity-creation
order; and any list with those two properties equals it, so two runs
over the same store state yield the identical draw sequence. -/
theorem c8_render_order_deterministic (st : ECSManager CompType CompVal) :
    (renderOrder st).Perm
      (st.get_entities_with [CompType.transformK, CompType.paperSpriteK]) ∧
    (renderOrder st).Pairwise (renderFullLe st) ∧
    (∀ l : List ℕ,
      l.Perm (st.get_entities_with [CompType.transformK, CompType.paperSpriteK]) →
      l.Pairwise (renderFullLe st) → l = renderOrder st) := by
  have hsl := sorted_lt_get_entities_with st
    [CompType.transformK, CompType.paperSpriteK]
  have hstable := mergeSort_pairwise_stable (renderKeyLe st) _ hsl
    (renderKeyLe_trans st) (renderKeyLe_total st)
  have hperm : (renderOrder st).Perm
      (st.get_entities_with [CompType.transformK, CompType.paperSpriteK]) :=
    List.mergeSort_perm _ _
  have hpw : (renderOrder st).Pairwise (renderFullLe st) := by
    refine hstable.imp ?_
    intro a b hab
    obtain ⟨hab, hba⟩ := hab
    rw [renderKeyLe, decide_eq_true_eq] at hab
    rcases hab with h | ⟨hz, hy⟩
    · exact Or.inl h
    · rcases lt_or_eq_of_le hy with hylt | hyeq
      · exact Or.inr ⟨hz, Or.inl hylt⟩
      · refine Or.inr ⟨hz, Or.inr ⟨hyeq, ?_⟩⟩
        refine hba ?_
        rw [renderKeyLe, decide_eq_true_eq]
        exact Or.inr ⟨hz.symm, le_of_eq hyeq.symm⟩
  refine ⟨hperm, hpw, ?_⟩
  intro l hlp hlpw
  haveI : IsAntisymm ℕ (renderFullLe st) := ⟨by
    intro a b hab hba
    rcases hab with h1 | ⟨h1, h2⟩ <;> rcases hba with h3 | ⟨h3, h4⟩
    · exact absurd (lt_trans h1 h3) (lt_irrefl _)
    · rw [h3] at h1
      exact absurd h1 (lt_irrefl _)
    · rw [h1] at h3
      exact absurd h3 (lt_irrefl _)
    · rcases h2 with h2 | ⟨h2, h5⟩ <;> rcases h4 with h4 | ⟨h4, h6⟩
      · exact absurd (lt_trans h2 h4) (lt_irrefl _)
      · rw [h4] at h2
        exact absurd h2 (lt_irrefl _)
      · rw [h2] at h4
        exact absurd h4 (lt_irrefl _)
      · exact le_antisymm h5 h6⟩
  exact List.eq_of_perm_of_sorted (hlp.trans hperm.symm) hlpw hpw

/-- A concrete store for the C8 witness: two entities (created as ids
0 and 1) both holding Transform and PaperSprite with identical sort
keys. -/
noncomputable def c8st : ECSManager CompType CompVal :=
  { next_entity_id := 2,
    components := [
      (CompType.transformK, [(0, CompVal.transformC ⟨0, 0, 16, 16⟩),
                             (1, CompVal.transformC ⟨5, 0, 16, 16⟩)]),
      (CompType.paperSpriteK, [(0, CompVal.paperSpriteC {}),
                               (1, CompVal.paperSpriteC {})])],
    entities_to_destroy := [] }

/-- Witness for C8 at the concrete store: the uniqueness clause applied
to the render order itself, with its hypotheses discharged by the other
two clauses. -/
theorem c8_render_order_deterministic_witness :
    renderOrder c8st = renderOrder c8st :=
  (c8_render_order_deterministic c8st).2.2 (renderOrder c8st)
    (c8_render_order_deterministic c8st).1
    (c8_render_order_deterministic c8st).2.1
